import Mathlib

/-!
Verification of the `HerculesLogger` event-queue component of
hercules-ci-agent (`src/hercules-ci-agent/cbits/hercules-logger.hh`).

The repository ships only the header: it declares the data model
(`struct LogEntry`, `struct State { std::queue<std::unique_ptr<LogEntry>> queue; }`)
and the operation signatures (`push`, `pop`, `popMany`, `close`, `getMs`,
and the four facade methods `log` / `startActivity` / `stopActivity` /
`result`).  The operation bodies live in a `.cc` file that is not part of
the sources here, so they are modelled from the specification, as noted on
each definition.  Blocking of the consumer is made explicit by a `blocks`
constructor in the result types of `pop` / `popMany`; C++ integral types
(`int`, `uint64_t`, `nix::Verbosity`, `nix::ActivityType`, …) are modelled
as `Nat`; the null `std::unique_ptr` is modelled as `Option.none`.
-/

namespace Hercules

/-- One element of `nix::Logger::Fields`: a typed key-less value, either an
integer or a string, passed through opaquely (spec §3 `fields`). -/
inductive Field where
  | int (n : Nat)
  | str (s : String)
deriving DecidableEq

/-- `struct LogEntry` from `hercules-logger.hh` lines 32–41, field for field.
`entryType` tags the event kind; `ms` is elapsed milliseconds since
construction; `activityId` / `type` / `parent` are the activity identifiers;
`fields` is the opaque structured payload. -/
structure LogEntry where
  entryType : Nat
  level : Nat
  ms : Nat
  text : String
  activityId : Nat
  type : Nat
  parent : Nat
  fields : List Field
deriving DecidableEq

/-- Tag for a plain message entry (spec §3: `entryKind` distinguishes
{message, activity-start, activity-stop, activity-result}; the concrete
numerals are internal and only their distinctness matters). -/
def msgEntryType : Nat := 0

/-- Tag for an activity-start entry. -/
def startEntryType : Nat := 1

/-- Tag for an activity-stop entry. -/
def stopEntryType : Nat := 2

/-- Tag for an activity-result entry. -/
def resultEntryType : Nat := 3

/-- `struct State` from `hercules-logger.hh` lines 20–23: the mutex-guarded
queue of owned entries, modelled as a list ordered head-first.  Modelled from
the spec: the `.cc` body is not in the sources, and the spec's `close()`
"marks the queue closed" (§4.2), so the closed mark the implementation must
keep is modelled as a `closed` flag alongside the queue. -/
structure State where
  queue : List LogEntry
  closed : Bool
deriving DecidableEq

/-- Result of `pop`: either the consumer blocks (empty open queue), or it
returns a possibly-null owned entry together with the post-state.  `none`
models the null `std::unique_ptr` sentinel. -/
inductive PopResult where
  | blocks
  | ret (e : Option LogEntry) (s : State)
deriving DecidableEq

/-- Result of `popMany`: either the consumer blocks (empty open queue), or it
returns the caller's out-queue (with the removed entries appended) and the
post-state. -/
inductive PopManyResult where
  | blocks
  | ret (out : List LogEntry) (s : State)
deriving DecidableEq

/-- `HerculesLogger::push`.  Modelled from the spec: the `.cc` body is not in
the sources.  Spec §4.2: appends to the tail under exclusive access, never
blocks, no error conditions.  Spec §7 use-after-close: "a no-op or fatal,
implementer's choice"; the no-op choice is modelled, so a push on a closed
queue leaves the state unchanged. -/
def push (e : LogEntry) (s : State) : State :=
  if s.closed then s else { s with queue := s.queue ++ [e] }

/-- `HerculesLogger::pop`.  Modelled from the spec: the `.cc` body is not in
the sources.  Spec §4.2: blocks until at least one entry is present, then
removes and returns the head (oldest) entry; if the queue is closed and
empty it returns the null sentinel instead of blocking. -/
def pop (s : State) : PopResult :=
  match s.queue with
  | e :: rest => PopResult.ret (some e) { s with queue := rest }
  | [] => if s.closed then PopResult.ret none s else PopResult.blocks

/-- `HerculesLogger::popMany(int max, std::queue<std::unique_ptr<LogEntry>> &out)`.
Modelled from the spec: the `.cc` body is not in the sources.  Spec §4.2:
removes up to `max` entries from the head in order, blocking until at least
one entry is available if the queue is currently empty (does not block once
closed); returns fewer than `max` if that is all that is available.  The
by-reference out-queue of the header's signature is modelled by passing the
prior contents in and returning them with the removed entries appended. -/
def popMany (max : Nat) (s : State) (out : List LogEntry) : PopManyResult :=
  if s.queue.isEmpty && !s.closed then PopManyResult.blocks
  else PopManyResult.ret (out ++ s.queue.take max) { s with queue := s.queue.drop max }

/-- `HerculesLogger::close`.  Modelled from the spec: the `.cc` body is not
in the sources.  Spec §4.2: marks the queue closed (waking of waiters is the
scheduler's side and is captured by `pop`/`popMany` no longer blocking). -/
def close (s : State) : State :=
  { s with closed := true }

/-- `HerculesLogger::getMs`, computed from `t_zero` (header line 18, a
`steady_clock` instant taken at construction).  Modelled from the spec: the
`.cc` body is not in the sources.  Spec §4.1: returns milliseconds elapsed
since construction from a monotonic source; both instants are modelled as
millisecond counts, so the elapsed time is their (truncated) difference. -/
def getMs (t_zero now : Nat) : Nat :=
  now - t_zero

/-- The logger object: the construction instant `t_zero` and the guarded
`state_`, as declared in the header (lines 18 and 24). -/
structure HerculesLogger where
  t_zero : Nat
  state_ : State

/-- A freshly constructed logger: empty open queue, `t_zero` fixed at the
construction instant. -/
def HerculesLogger.fresh (t_zero : Nat) : HerculesLogger :=
  ⟨t_zero, ⟨[], false⟩⟩

/-- `HerculesLogger::log(lvl, fs)`.  Modelled from the spec: the `.cc` body
is not in the sources.  Spec §4.3: builds a message Entry with the current
elapsed time, `text = formattedMessage`, activity fields at their absent
sentinel (0) and no structured payload; side effect exactly one push.
`now` is the clock reading at the call. -/
def HerculesLogger.log (l : HerculesLogger) (now lvl : Nat) (fs : String) :
    HerculesLogger :=
  ⟨l.t_zero, push ⟨msgEntryType, lvl, getMs l.t_zero now, fs, 0, 0, 0, []⟩ l.state_⟩

/-- `HerculesLogger::startActivity(act, lvl, type, s, fields, parent)`.
Modelled from the spec: the `.cc` body is not in the sources.  Spec §4.3:
builds a start Entry carrying all six inputs plus elapsed time, fields
forwarded verbatim and order-preserved; side effect exactly one push. -/
def HerculesLogger.startActivity (l : HerculesLogger)
    (now act lvl ty : Nat) (s : String) (fields : List Field) (parent : Nat) :
    HerculesLogger :=
  ⟨l.t_zero,
   push ⟨startEntryType, lvl, getMs l.t_zero now, s, act, ty, parent, fields⟩ l.state_⟩

/-- `HerculesLogger::stopActivity(act)`.  Modelled from the spec: the `.cc`
body is not in the sources.  Spec §4.3: builds a stop Entry carrying only
the activity id and elapsed time, text and fields empty; side effect exactly
one push. -/
def HerculesLogger.stopActivity (l : HerculesLogger) (now act : Nat) :
    HerculesLogger :=
  ⟨l.t_zero, push ⟨stopEntryType, 0, getMs l.t_zero now, "", act, 0, 0, []⟩ l.state_⟩

/-- `HerculesLogger::result(act, type, fields)`.  Modelled from the spec:
the `.cc` body is not in the sources.  Spec §4.3: builds a result Entry
carrying the activity id, a type tag and the fields; side effect exactly
one push. -/
def HerculesLogger.result (l : HerculesLogger)
    (now act ty : Nat) (fields : List Field) : HerculesLogger :=
  ⟨l.t_zero, push ⟨resultEntryType, 0, getMs l.t_zero now, "", act, ty, 0, fields⟩ l.state_⟩

/-- One producer-side facade event, used to speak about whole call
sequences. -/
inductive Event where
  | msg (lvl : Nat) (fs : String)
  | start (act lvl ty : Nat) (s : String) (fields : List Field) (parent : Nat)
  | stop (act : Nat)
  | res (act ty : Nat) (fields : List Field)

/-- Dispatch one facade event at clock reading `now`. -/
def HerculesLogger.step (l : HerculesLogger) (now : Nat) (ev : Event) :
    HerculesLogger :=
  match ev with
  | .msg lvl fs => l.log now lvl fs
  | .start act lvl ty s fields parent => l.startActivity now act lvl ty s fields parent
  | .stop act => l.stopActivity now act
  | .res act ty fields => l.result now act ty fields

/-- Run a sequence of facade events, each paired with its clock reading. -/
def HerculesLogger.run (l : HerculesLogger) (evs : List (Nat × Event)) :
    HerculesLogger :=
  evs.foldl (fun l p => l.step p.1 p.2) l

/-- The entry a single facade event translates to (for a logger constructed
at `t_zero`), mirroring the four builders above. -/
def entryOf (t_zero : Nat) (p : Nat × Event) : LogEntry :=
  match p.2 with
  | .msg lvl fs => ⟨msgEntryType, lvl, getMs t_zero p.1, fs, 0, 0, 0, []⟩
  | .start act lvl ty s fields parent =>
      ⟨startEntryType, lvl, getMs t_zero p.1, s, act, ty, parent, fields⟩
  | .stop act => ⟨stopEntryType, 0, getMs t_zero p.1, "", act, 0, 0, []⟩
  | .res act ty fields => ⟨resultEntryType, 0, getMs t_zero p.1, "", act, ty, 0, fields⟩

/-- Push a whole list of entries, oldest first (a single producer's call
sequence). -/
def pushAll (es : List LogEntry) (s : State) : State :=
  es.foldl (fun s e => push e s) s

/-- Drain by repeated `pop` until the null sentinel (or blocking, or fuel
exhaustion), collecting returned entries in order. -/
def popAll (s : State) : Nat → List LogEntry
  | 0 => []
  | fuel + 1 =>
    match pop s with
    | PopResult.ret (some e) s' => e :: popAll s' fuel
    | _ => []

/-- Run a schedule of `popMany` batch sizes, threading the out-queue through
(as a consumer loop does); stops if a call would block. -/
def drainWith (s : State) (out : List LogEntry) : List Nat → List LogEntry × State
  | [] => (out, s)
  | m :: rest =>
    match popMany m s out with
    | PopManyResult.ret r s' => drainWith s' r rest
    | PopManyResult.blocks => (out, s)

/-! ### Basic lemmas -/

/-- `push` on an open queue appends one entry at the tail. -/
theorem push_open (e : LogEntry) (s : State) (h : s.closed = false) :
    push e s = ⟨s.queue ++ [e], false⟩ := by
  simp [push, h]

/-- `pushAll` on an open queue appends the whole list in order and leaves
the queue open. -/
theorem pushAll_open (es : List LogEntry) :
    ∀ s : State, s.closed = false → pushAll es s = ⟨s.queue ++ es, false⟩ := by
  induction es with
  | nil => intro s h; cases s; simp_all [pushAll]
  | cons e rest ih =>
    intro s h
    have : pushAll (e :: rest) s = pushAll rest (push e s) := rfl
    rw [this, push_open e s h, ih ⟨s.queue ++ [e], false⟩ rfl]
    simp

/-- Fully draining a closed queue by repeated `pop` returns exactly its
contents, given enough fuel. -/
theorem popAll_closed (es : List LogEntry) :
    ∀ fuel : Nat, es.length ≤ fuel → popAll ⟨es, true⟩ fuel = es := by
  induction es with
  | nil =>
    intro fuel _
    cases fuel with
    | zero => rfl
    | succ n => simp [popAll, pop]
  | cons e rest ih =>
    intro fuel hf
    cases fuel with
    | zero => simp at hf
    | succ n =>
      have hn : rest.length ≤ n := Nat.le_of_succ_le_succ (by simpa using hf)
      simp [popAll, pop, ih n hn]

/-- One facade step on an open logger appends exactly the translated entry
and leaves the queue open and `t_zero` unchanged. -/
theorem step_open (l : HerculesLogger) (now : Nat) (ev : Event)
    (h : l.state_.closed = false) :
    l.step now ev = ⟨l.t_zero, ⟨l.state_.queue ++ [entryOf l.t_zero (now, ev)], false⟩⟩ := by
  cases ev <;>
    simp [HerculesLogger.step, HerculesLogger.log, HerculesLogger.startActivity,
      HerculesLogger.stopActivity, HerculesLogger.result, entryOf, push, h]

/-- Running a call sequence on an open logger appends the translated entries
in call order. -/
theorem run_open (evs : List (Nat × Event)) :
    ∀ l : HerculesLogger, l.state_.closed = false →
      l.run evs = ⟨l.t_zero, ⟨l.state_.queue ++ evs.map (entryOf l.t_zero), false⟩⟩ := by
  induction evs with
  | nil => intro l h; cases l with | mk t s => cases s; simp_all [HerculesLogger.run]
  | cons p rest ih =>
    intro l h
    have h1 : l.run (p :: rest) = (l.step p.1 p.2).run rest := rfl
    rw [h1, step_open l p.1 p.2 h,
      ih ⟨l.t_zero, ⟨l.state_.queue ++ [entryOf l.t_zero (p.1, p.2)], false⟩⟩ rfl]
    simp

/-- The timestamp of a translated entry is the clock reading fed through
`getMs`. -/
theorem entryOf_ms (t_zero : Nat) (p : Nat × Event) :
    (entryOf t_zero p).ms = getMs t_zero p.1 := by
  obtain ⟨t, ev⟩ := p
  cases ev <;> rfl

/-- Any schedule of `popMany` calls on a closed queue removes some prefix of
the queue, in order, appended after the out-queue's prior contents. -/
theorem drainWith_closed (maxs : List Nat) :
    ∀ (q out : List LogEntry),
      ∃ n, drainWith ⟨q, true⟩ out maxs = (out ++ q.take n, ⟨q.drop n, true⟩) := by
  induction maxs with
  | nil => intro q out; exact ⟨0, by simp [drainWith]⟩
  | cons m rest ih =>
    intro q out
    obtain ⟨n, hn⟩ := ih (q.drop m) (out ++ q.take m)
    refine ⟨m + n, ?_⟩
    have hpm : popMany m ⟨q, true⟩ out
        = PopManyResult.ret (out ++ q.take m) ⟨q.drop m, true⟩ := by
      simp [popMany]
    have h1 : drainWith ⟨q, true⟩ out (m :: rest)
        = drainWith ⟨q.drop m, true⟩ (out ++ q.take m) rest := by
      simp [drainWith, hpm]
    rw [h1, hn, List.take_add q m n, List.drop_drop]
    simp [Nat.add_comm]

/-! ### Concrete entries used by witnesses -/

/-- A sample message entry. -/
def e0 : LogEntry := ⟨msgEntryType, 1, 3, "one", 0, 0, 0, []⟩

/-- A sample stop entry. -/
def e1 : LogEntry := ⟨stopEntryType, 0, 4, "", 7, 0, 0, []⟩

/-- A sample result entry. -/
def e2 : LogEntry := ⟨resultEntryType, 0, 5, "", 7, 9, 0, [Field.int 1]⟩

/-! ### Claims -/

/-- C1: entries are removed in the exact order they were appended — `pop`
removes and returns the oldest (head) entry, `popMany` removes entries from
the head in arrival order, and for every sequence of pushes from a single
thread the entries drained by any schedule of `popMany` calls preserve that
relative order (they form a prefix of the pushed sequence). -/
theorem C1_fifo_order :
    (∀ (s : State) (e : LogEntry) (rest : List LogEntry),
        s.queue = e :: rest → pop s = PopResult.ret (some e) ⟨rest, s.closed⟩) ∧
    (∀ (max : Nat) (s : State) (out r : List LogEntry) (s' : State),
        popMany max s out = PopManyResult.ret r s' →
        r = out ++ s.queue.take max ∧ s' = ⟨s.queue.drop max, s.closed⟩) ∧
    (∀ (es : List LogEntry) (maxs : List Nat),
        ∃ t, (drainWith (close (pushAll es ⟨[], false⟩)) [] maxs).1 ++ t = es) := by
  refine ⟨?_, ?_, ?_⟩
  · intro s e rest h
    obtain ⟨q, c⟩ := s
    simp only at h
    subst h
    rfl
  · intro max s out r s' h
    by_cases hc : (s.queue.isEmpty && !s.closed) = true
    · simp [popMany, hc] at h
    · simp [popMany, hc] at h
      obtain ⟨q, c⟩ := s
      exact ⟨h.1.symm, h.2.symm⟩
  · intro es maxs
    have hq : close (pushAll es ⟨[], false⟩) = ⟨es, true⟩ := by
      rw [pushAll_open es ⟨[], false⟩ rfl]; rfl
    obtain ⟨n, hn⟩ := drainWith_closed maxs es []
    refine ⟨es.drop n, ?_⟩
    rw [hq, hn]
    simp [List.take_append_drop]

/-- Witness for C1 at a concrete two-entry queue. -/
theorem C1_fifo_order_witness :
    pop ⟨[e0, e1], false⟩ = PopResult.ret (some e0) ⟨[e1], false⟩ :=
  C1_fifo_order.1 ⟨[e0, e1], false⟩ e0 [e1] rfl

/-- C2: pushing any N entries, then `close()`, then draining yields exactly
those N entries — none dropped, none duplicated, each one previously pushed
(draining works both by repeated `pop` and by one `popMany`), and draining a
closed queue onto which nothing was pushed returns nothing. -/
theorem C2_no_loss :
    (∀ es : List LogEntry,
        popAll (close (pushAll es ⟨[], false⟩)) es.length = es ∧
        popMany es.length (close (pushAll es ⟨[], false⟩)) []
          = PopManyResult.ret es ⟨[], true⟩) ∧
    (∀ fuel : Nat, popAll (close ⟨[], false⟩) fuel = []) := by
  constructor
  · intro es
    have hq : close (pushAll es ⟨[], false⟩) = ⟨es, true⟩ := by
      rw [pushAll_open es ⟨[], false⟩ rfl]; rfl
    rw [hq]
    refine ⟨popAll_closed es es.length (Nat.le_refl _), ?_⟩
    simp [popMany]
  · intro fuel
    cases fuel with
    | zero => rfl
    | succ n => simp [popAll, pop, close]

/-- C3: `close` marks the queue closed and is idempotent; the closed state is
terminal (`push`, `pop` and `popMany` never clear the mark); once closed,
`pop` and `popMany` never block; and a consumer facing an empty closed queue
gets the null sentinel from `pop` immediately, without any further push. -/
theorem C3_close_terminal :
    (∀ s : State, close (close s) = close s) ∧
    (∀ s : State, (close s).closed = true) ∧
    (∀ (s : State) (e : LogEntry), (push e s).closed = s.closed) ∧
    (∀ (s s' : State) (r : Option LogEntry),
        pop s = PopResult.ret r s' → s'.closed = s.closed) ∧
    (∀ (max : Nat) (s : State) (out r : List LogEntry) (s' : State),
        popMany max s out = PopManyResult.ret r s' → s'.closed = s.closed) ∧
    (∀ s : State, s.closed = true →
        pop s ≠ PopResult.blocks ∧
        ∀ (max : Nat) (out : List LogEntry), popMany max s out ≠ PopManyResult.blocks) ∧
    (∀ s : State, s.queue = [] → pop (close s) = PopResult.ret none (close s)) := by
  refine ⟨fun s => rfl, fun s => rfl, ?_, ?_, ?_, ?_, ?_⟩
  · intro s e
    by_cases h : s.closed <;> simp [push, h]
  · intro s s' r h
    obtain ⟨q, c⟩ := s
    cases q with
    | nil =>
      cases c with
      | false => simp [pop] at h
      | true => simp [pop] at h; rw [← h.2]
    | cons e rest => simp [pop] at h; rw [← h.2]
  · intro max s out r s' h
    by_cases hc : (s.queue.isEmpty && !s.closed) = true
    · simp [popMany, hc] at h
    · simp [popMany, hc] at h
      rw [← h.2]
  · intro s h
    obtain ⟨q, c⟩ := s
    simp only at h
    subst h
    cases q with
    | nil => exact ⟨by simp [pop], fun max out => by simp [popMany]⟩
    | cons e rest => exact ⟨by simp [pop], fun max out => by simp [popMany]⟩
  · intro s h
    obtain ⟨q, c⟩ := s
    simp only at h
    subst h
    simp [pop, close]

/-- Witness for C3: a consumer at an empty queue gets the null sentinel
right after close. -/
theorem C3_close_terminal_witness :
    pop (close ⟨[], false⟩) = PopResult.ret none (close ⟨[], false⟩) :=
  C3_close_terminal.2.2.2.2.2.2 ⟨[], false⟩ rfl

/-- C4: `popMany max` removes at most `max` entries from the head in order
(it appends exactly `min max available` entries, so it never waits to fill a
batch when fewer are available), and it blocks exactly when zero entries are
available and the queue is open. -/
theorem C4_popMany_bound :
    (∀ (max : Nat) (s : State) (out r : List LogEntry) (s' : State),
        popMany max s out = PopManyResult.ret r s' →
        r = out ++ s.queue.take max ∧
        r.length ≤ out.length + max ∧
        r.length = out.length + min max s.queue.length ∧
        s'.queue = s.queue.drop max) ∧
    (∀ (max : Nat) (s : State) (out : List LogEntry),
        popMany max s out = PopManyResult.blocks ↔ s.queue = [] ∧ s.closed = false) := by
  constructor
  · intro max s out r s' h
    by_cases hc : (s.queue.isEmpty && !s.closed) = true
    · simp [popMany, hc] at h
    · simp [popMany, hc] at h
      obtain ⟨h1, h2⟩ := h
      subst h1
      refine ⟨rfl, ?_, ?_, ?_⟩
      · simp only [List.length_append, List.length_take]
        omega
      · simp only [List.length_append, List.length_take]
      · rw [← h2]
  · intro max s out
    constructor
    · intro h
      by_cases hc : (s.queue.isEmpty && !s.closed) = true
      · simp at hc
        exact hc
      · simp [popMany, hc] at h
    · intro ⟨h1, h2⟩
      simp [popMany, h1, h2]

/-- Witness for C4 at a closed one-entry queue and batch size 2. -/
theorem C4_popMany_bound_witness :
    [e0] = [] ++ (⟨[e0], true⟩ : State).queue.take 2 ∧
    ([e0] : List LogEntry).length ≤ ([] : List LogEntry).length + 2 ∧
    ([e0] : List LogEntry).length
      = ([] : List LogEntry).length + min 2 (⟨[e0], true⟩ : State).queue.length ∧
    (⟨[], true⟩ : State).queue = (⟨[e0], true⟩ : State).queue.drop 2 :=
  C4_popMany_bound.1 2 ⟨[e0], true⟩ [] [e0] ⟨[], true⟩ rfl

/-- C5: a facade call made after `close()` is an explicit no-op — the entry
is not accepted into the closed queue and the logger is left unchanged (the
operation is a total function, so the producer thread never crashes). -/
theorem C5_use_after_close (l : HerculesLogger) (now : Nat) (ev : Event)
    (h : l.state_.closed = true) :
    l.step now ev = l := by
  cases ev <;>
    simp [HerculesLogger.step, HerculesLogger.log, HerculesLogger.startActivity,
      HerculesLogger.stopActivity, HerculesLogger.result, push, h]

/-- Witness for C5: a log call on a closed logger changes nothing. -/
theorem C5_use_after_close_witness :
    HerculesLogger.step ⟨0, ⟨[], true⟩⟩ 7 (Event.msg 2 "x") = ⟨0, ⟨[], true⟩⟩ :=
  C5_use_after_close ⟨0, ⟨[], true⟩⟩ 7 (Event.msg 2 "x") rfl

/-- C6: `getMs` is a total, pure, monotone function of the clock reading
(milliseconds since `t_zero`), and consequently any call sequence on a fresh
logger whose clock readings are nondecreasing (the monotonic-clock
guarantee) produces entries whose `ms` values are nondecreasing in push
order. -/
theorem C6_monotone_timestamps :
    (∀ t_zero t t' : Nat, t ≤ t' → getMs t_zero t ≤ getMs t_zero t') ∧
    (∀ (t_zero : Nat) (evs : List (Nat × Event)),
        List.Chain' (· ≤ ·) (evs.map Prod.fst) →
        List.Chain' (· ≤ ·)
          (((HerculesLogger.fresh t_zero).run evs).state_.queue.map LogEntry.ms)) := by
  constructor
  · intro t_zero t t' h
    exact Nat.sub_le_sub_right h t_zero
  · intro t_zero evs h
    rw [run_open evs (HerculesLogger.fresh t_zero) rfl]
    have hmap : (evs.map (entryOf t_zero)).map LogEntry.ms
        = (evs.map Prod.fst).map (getMs t_zero) := by
      simp only [List.map_map]
      exact List.map_congr_left (fun p _ => entryOf_ms t_zero p)
    simp only [HerculesLogger.fresh, List.nil_append]
    rw [hmap]
    exact List.chain'_map_of_chain' (getMs t_zero)
      (fun a b hab => Nat.sub_le_sub_right hab t_zero) h

/-- Concrete nondecreasing-clock call sequence for the C6 witness. -/
def tsEvents : List (Nat × Event) :=
  [(5, Event.msg 1 "a"), (5, Event.stop 3), (9, Event.msg 0 "b")]

/-- Witness for C6 on a concrete three-call sequence. -/
theorem C6_monotone_timestamps_witness :
    List.Chain' (· ≤ ·)
      (((HerculesLogger.fresh 0).run tsEvents).state_.queue.map LogEntry.ms) :=
  C6_monotone_timestamps.2 0 tsEvents
    (List.chain'_cons.mpr ⟨by omega, List.chain'_cons.mpr ⟨by omega, by simp⟩⟩)

/-- Modelled from the spec: the INFO verbosity ordinal.  The numeral of the
external `nix::Verbosity` enum is not in the sources; only its being passed
through matters. -/
def lvlInfo : Nat := 2

/-- Modelled from the spec: the BUILD activity-type tag of the external
`nix::ActivityType` enum; opaque to this component. -/
def actBuild : Nat := 105

/-- Modelled from the spec: the SUCCESS result-type tag of the scenario;
opaque to this component. -/
def resSuccess : Nat := 0

/-- The spec §8 scenario call sequence: startActivity(id=1, BUILD, parent=0),
log(INFO, "building"), result(id=1, SUCCESS), stopActivity(1). -/
def scenarioEvents : List (Nat × Event) :=
  [(10, Event.start 1 lvlInfo actBuild "" [] 0),
   (20, Event.msg lvlInfo "building"),
   (30, Event.res 1 resSuccess []),
   (40, Event.stop 1)]

/-- Everything drained (by repeated `pop`) after running the scenario and
closing. -/
def scenarioDrained : List LogEntry :=
  popAll (close ((HerculesLogger.fresh 0).run scenarioEvents).state_) 8

/-- C7: the scenario start(1,BUILD,0) → log(INFO,"building") → result(1,
SUCCESS) → stop(1) → close → drain-all yields exactly 4 entries in that
exact order, with activityId 1 on entries 1, 3 and 4, and entry 2 carrying
the message text "building". -/
theorem C7_scenario :
    scenarioDrained.length = 4 ∧
    scenarioDrained.map LogEntry.entryType
      = [startEntryType, msgEntryType, resultEntryType, stopEntryType] ∧
    scenarioDrained.map LogEntry.activityId = [1, 0, 1, 1] ∧
    scenarioDrained.map LogEntry.text = ["", "building", "", ""] :=
  ⟨rfl, rfl, rfl, rfl⟩

/-- C8: on an open logger each facade operation performs exactly one push of
exactly one entry stamped with the current elapsed time: `log` pushes a
message entry with the formatted text and all activity fields at the absent
sentinel 0; `startActivity` pushes a start entry forwarding all six inputs
with the fields verbatim and order-preserved; `stopActivity` pushes a stop
entry carrying only the activity id and the elapsed time, text and fields
empty. -/
theorem C8_facade_one_push (l : HerculesLogger) (now : Nat)
    (h : l.state_.closed = false) :
    (∀ (lvl : Nat) (fs : String),
        (l.log now lvl fs).state_
          = ⟨l.state_.queue
              ++ [⟨msgEntryType, lvl, getMs l.t_zero now, fs, 0, 0, 0, []⟩], false⟩) ∧
    (∀ (act lvl ty : Nat) (s : String) (fields : List Field) (parent : Nat),
        (l.startActivity now act lvl ty s fields parent).state_
          = ⟨l.state_.queue
              ++ [⟨startEntryType, lvl, getMs l.t_zero now, s, act, ty, parent, fields⟩],
             false⟩) ∧
    (∀ act : Nat,
        (l.stopActivity now act).state_
          = ⟨l.state_.queue
              ++ [⟨stopEntryType, 0, getMs l.t_zero now, "", act, 0, 0, []⟩], false⟩) := by
  refine ⟨?_, ?_, ?_⟩ <;> intros <;>
    simp [HerculesLogger.log, HerculesLogger.startActivity,
      HerculesLogger.stopActivity, push, h]

/-- Witness for C8: one log call on a fresh logger. -/
theorem C8_facade_one_push_witness :
    ((HerculesLogger.fresh 0).log 7 2 "hi").state_
      = ⟨(HerculesLogger.fresh 0).state_.queue
          ++ [⟨msgEntryType, 2, getMs (HerculesLogger.fresh 0).t_zero 7,
               "hi", 0, 0, 0, []⟩], false⟩ :=
  (C8_facade_one_push (HerculesLogger.fresh 0) 7 rfl).1 2 "hi"

/-- C9: `popMany` does not hand back a fresh sequence — whenever it returns,
its out-queue equals the caller-supplied out-queue's prior contents,
unchanged and in place, followed by the removed head entries in order, and
the removed entries are exactly the ones taken off the queue. -/
theorem C9_out_append (max : Nat) (s : State) (out r : List LogEntry) (s' : State)
    (h : popMany max s out = PopManyResult.ret r s') :
    r = out ++ s.queue.take max ∧ s'.queue = s.queue.drop max := by
  by_cases hc : (s.queue.isEmpty && !s.closed) = true
  · simp [popMany, hc] at h
  · simp [popMany, hc] at h
    exact ⟨h.1.symm, by rw [← h.2]⟩

/-- Witness for C9: a non-empty out-queue keeps its contents ahead of the
newly drained entry. -/
theorem C9_out_append_witness :
    [e2, e0] = [e2] ++ (⟨[e0, e1], false⟩ : State).queue.take 1 ∧
    (⟨[e1], false⟩ : State).queue = (⟨[e0, e1], false⟩ : State).queue.drop 1 :=
  C9_out_append 1 ⟨[e0, e1], false⟩ [e2] [e2, e0] ⟨[e1], false⟩ rfl

/-- C10: the empty/sentinel result of `pop` is the null owning pointer
(`none`), returned exactly when the queue is closed and drained, so a caller
can decide "closed and drained" solely by a null test; a non-null return
carries exactly one entry, the former head, whose ownership moves out of the
queue; and the null sentinel is distinguishable from every real entry. -/
theorem C10_null_sentinel :
    (∀ s s' : State,
        pop s = PopResult.ret none s' → s.queue = [] ∧ s.closed = true ∧ s' = s) ∧
    (∀ s : State, s.queue = [] → s.closed = true → pop s = PopResult.ret none s) ∧
    (∀ (s s' : State) (e : LogEntry),
        pop s = PopResult.ret (some e) s' → s.queue = e :: s'.queue) ∧
    (∀ e : LogEntry, (some e : Option LogEntry) ≠ none) := by
  refine ⟨?_, ?_, ?_, fun e => by simp⟩
  · intro s s' h
    obtain ⟨q, c⟩ := s
    cases q with
    | nil =>
      cases c with
      | false => simp [pop] at h
      | true => exact ⟨rfl, rfl, by simp [pop] at h; rw [← h]⟩
    | cons e rest => simp [pop] at h
  · intro s h1 h2
    obtain ⟨q, c⟩ := s
    simp only at h1 h2
    subst h1; subst h2
    rfl
  · intro s s' e h
    obtain ⟨q, c⟩ := s
    cases q with
    | nil =>
      cases c with
      | false => simp [pop] at h
      | true => simp [pop] at h
    | cons e' rest =>
      simp [pop] at h
      rw [h.1.symm, ← h.2]

/-- Witness for C10: the null sentinel at a closed, drained queue. -/
theorem C10_null_sentinel_witness :
    pop ⟨[], true⟩ = PopResult.ret none ⟨[], true⟩ :=
  C10_null_sentinel.2.1 ⟨[], true⟩ rfl rfl

end Hercules
